import Mathlib

/-!
Verification development for the upstox candle-data downloader
(`app.py` and `app2.py`).

Dates are modelled at day granularity as proleptic-Gregorian ordinals
(`Nat`), the convention of Python's `datetime.date.toordinal`
(ordinal 1 = 0001-01-01).  Both scripts only ever use a datetime through
`.year`, subtraction of whole days (`timedelta(days=...)`), ordering, and
`max`, all of which are faithfully represented at day granularity.

Strings are modelled as `List Char`.  The remote API call of
`fetch_chunk` is modelled by its observable outcome (`Except`/`Option`),
and each script's backward `while` loop is modelled as a fuel-based
recursion together with a fuel-irrelevance lemma showing the loop stops
by its own condition, never by fuel exhaustion.
-/

namespace Upstox

/-- Days in years 1..y-1 of the proleptic Gregorian calendar, so the
ordinal of January 1st of year `y` is `daysBeforeYear y + 1`
(Python `datetime` convention). -/
def daysBeforeYear (y : Nat) : Nat :=
  let n := y - 1
  365 * n + n / 4 - n / 100 + n / 400

/-- Year of a date ordinal, following CPython's `_ord2ymd` algorithm
(this is the semantics of `datetime.year` for the dates the scripts
manipulate). -/
def yearOf (ord : Nat) : Nat :=
  let n := ord - 1
  let n400 := n / 146097
  let r400 := n % 146097
  let n100 := r400 / 36524
  let r100 := r400 % 36524
  let n4 := r100 / 1461
  let r4 := r100 % 1461
  let n1 := r4 / 365
  let y := 400 * n400 + 100 * n100 + 4 * n4 + n1 + 1
  if n1 = 4 ∨ n100 = 4 then y - 1 else y

/-- One raw candle tuple `(Date, Open, High, Low, Close, Volume,
Open_Interest)` as returned by the API and consumed by both scripts.
The date is a day ordinal; the numeric payload fields are opaque to
every property proved here. -/
structure Candle where
  date : Nat
  open_ : Int
  high : Int
  low : Int
  close : Int
  volume : Int
  openInterest : Int
deriving DecidableEq

/-- `CHUNK_SIZE_DAYS = 365 * 3` (both scripts). -/
def CHUNK_SIZE_DAYS : Nat := 365 * 3

/-- `STOP_YEAR = 2000` (`app.py`). -/
def STOP_YEAR : Nat := 2000

/-- `START_DATE = datetime(2010, 1, 1)` of `app2.py`, as an ordinal. -/
def START_ORD : Nat := daysBeforeYear 2010 + 1

/-- `fetch_chunk` (identical in `app.py` lines 35-53 and `app2.py` lines
31-48), modelled on the observable outcome of the remote call
`api.get_historical_candle_data1`: `.error` is a raised exception,
`.ok none` a response object without a `candles` attribute (the
`getattr(response.data, "candles", [])` default), and `.ok (some cs)` a
response carrying the candle list `cs`.  The body's
`return candles if candles else []` maps an empty/falsy list to `[]`. -/
def fetch_chunk (apiResult : Except Unit (Option (List Candle))) : List Candle :=
  match apiResult with
  | .error _ => []
  | .ok resp =>
      let candles := resp.getD []
      if candles.isEmpty then [] else candles

/-- The backward pagination loop of `app.py::process_single_stock`
(lines 69-90), fuel-based.  State is `current_end`; each iteration
probes the window `[current_end - CHUNK_SIZE_DAYS, current_end]` through
the abstract per-window fetcher `fetch` (the composition of
`fetch_chunk` with the API behaviour) and records
`(current_start, current_end, chunk)`.  On a non-empty chunk it
continues from `current_start`; on an empty chunk it breaks when
`current_end.year < 2010` and otherwise continues from `current_start`.
The `while` guard is `current_end.year >= STOP_YEAR`. -/
def appLoopAux (fetch : Nat → Nat → List Candle) :
    Nat → Nat → List (Nat × Nat × List Candle)
  | 0, _ => []
  | fuel + 1, currentEnd =>
    if STOP_YEAR ≤ yearOf currentEnd then
      let currentStart := currentEnd - CHUNK_SIZE_DAYS
      let chunk := fetch currentStart currentEnd
      if chunk = [] then
        if yearOf currentEnd < 2010 then [(currentStart, currentEnd, chunk)]
        else (currentStart, currentEnd, chunk) :: appLoopAux fetch fuel currentStart
      else (currentStart, currentEnd, chunk) :: appLoopAux fetch fuel currentStart
    else []

/-- The `app.py` pagination trace starting from `current_end = e`.
Fuel `e + 1` always suffices (see the fuel-irrelevance theorems). -/
def appLoop (fetch : Nat → Nat → List Candle) (e : Nat) :
    List (Nat × Nat × List Candle) :=
  appLoopAux fetch (e + 1) e

/-- `all_candles` accumulated by the `app.py` loop: the chunks of all
probed windows, concatenated in probe order (`all_candles.extend`). -/
def allCandles (fetch : Nat → Nat → List Candle) (e : Nat) : List Candle :=
  ((appLoop fetch e).map (fun w => w.2.2)).flatten

/-- The backward pagination loop of `app2.py::process_single_stock`
(lines 61-81), fuel-based.  Each iteration probes
`[max (current_end - CHUNK_SIZE_DAYS) START_DATE, current_end]`, always
moves `current_end` to `current_start - 1` day, and breaks once
`current_start <= START_DATE`; the `while` guard is
`current_end >= START_DATE`. -/
def app2LoopAux (fetch : Nat → Nat → List Candle) :
    Nat → Nat → List (Nat × Nat × List Candle)
  | 0, _ => []
  | fuel + 1, currentEnd =>
    if START_ORD ≤ currentEnd then
      let currentStart := max (currentEnd - CHUNK_SIZE_DAYS) START_ORD
      let chunk := fetch currentStart currentEnd
      if currentStart ≤ START_ORD then [(currentStart, currentEnd, chunk)]
      else (currentStart, currentEnd, chunk) ::
        app2LoopAux fetch fuel (currentStart - 1)
    else []

/-- The `app2.py` pagination trace starting from `current_end = e`. -/
def app2Loop (fetch : Nat → Nat → List Candle) (e : Nat) :
    List (Nat × Nat × List Candle) :=
  app2LoopAux fetch (e + 1) e

/-- The date windows `(start, end)` issued by the `app2.py` loop. -/
def app2Windows (fetch : Nat → Nat → List Candle) (e : Nat) :
    List (Nat × Nat) :=
  (app2Loop fetch e).map (fun w => (w.1, w.2.1))

/-- Synthetic fetcher of the spec's adaptive-stop termination property:
returns a candle exactly for windows whose end year is 2015 or later,
and nothing for earlier windows. -/
def synthFetch (_s e : Nat) : List Candle :=
  if 2015 ≤ yearOf e then [⟨e, 0, 0, 0, 0, 0, 0⟩] else []

/-- A fetcher that returns one candle at each of its window's two
boundary dates — dates are never duplicated inside a single window
(with distinct boundaries), yet consecutive `app.py` windows share a
boundary date. -/
def boundaryFetch (s e : Nat) : List Candle :=
  [⟨s, 0, 0, 0, 0, 0, 0⟩, ⟨e, 0, 0, 0, 0, 0, 0⟩]

/-- Candle ordering used by `df.sort_values('Date')`: non-decreasing
date. -/
def dateLe (a b : Candle) : Prop := a.date ≤ b.date

instance : DecidableRel dateLe := fun a b => Nat.decLe a.date b.date

instance : IsTotal Candle dateLe := ⟨fun a b => Nat.le_total a.date b.date⟩

instance : IsTrans Candle dateLe := ⟨fun _ _ _ h1 h2 => Nat.le_trans h1 h2⟩

/-- `df.drop_duplicates(subset=['Date'])`: keep the first record of each
date, in order, tracking the set of dates already seen. -/
def dedupFirstAux (seen : List Nat) : List Candle → List Candle
  | [] => []
  | c :: cs =>
    if c.date ∈ seen then dedupFirstAux seen cs
    else c :: dedupFirstAux (c.date :: seen) cs

/-- Keep-first deduplication by date. -/
def dedupFirst (l : List Candle) : List Candle := dedupFirstAux [] l

/-- The per-symbol normalization of both scripts (`app.py` lines
104-105, `app2.py` line 99): sort ascending by date, then drop duplicate
dates keeping the first occurrence.  (The dtype coercions of the
surrounding lines do not alter the record set.) -/
def normalize (raw : List Candle) : List Candle :=
  dedupFirst (List.insertionSort dateLe raw)

/-- A symbol, a Python `str` modelled as its character list. -/
abbrev Sym : Type := List Char

/-- One row of the long-format `app2.py` table: the `Symbol` column
attached to a candle record (`df['Symbol'] = symbol`). -/
abbrev Row : Type := Sym × Candle

/-- Strict lexicographic comparison of Python strings (character lists),
the order pandas uses on a string column. -/
def strLtB : List Char → List Char → Bool
  | [], [] => false
  | [], _ :: _ => true
  | _ :: _, [] => false
  | a :: s, b :: t =>
    if a.toNat < b.toNat then true
    else if b.toNat < a.toNat then false
    else strLtB s t

/-- Row ordering of `final_df.sort_values(['Symbol', 'Date'])`:
lexicographic on symbol, then non-decreasing date. -/
def rowLe (a b : Row) : Prop :=
  strLtB a.1 b.1 = true ∨ (a.1 = b.1 ∧ a.2.date ≤ b.2.date)

instance : DecidableRel rowLe := fun _a _b =>
  inferInstanceAs (Decidable (_ ∨ _ ∧ _))

/-- The aggregation step of `app2.py::__main__` (lines 148-157):
`pd.concat(all_data)` followed by
`sort_values(['Symbol', 'Date'])`. -/
def aggregate (all_data : List (List Row)) : List Row :=
  List.insertionSort rowLe all_data.flatten

/-- Sheet-name sanitization of `app.py` line 155:
`symbol.replace('|','').replace(':','').replace('/','')[:30]`. -/
def sanitize (symbol : List Char) : List Char :=
  ((((symbol.filter (fun c => c ≠ '|')).filter
      (fun c => c ≠ ':')).filter (fun c => c ≠ '/')).take 30)

/-- Python `str.strip()`: drop whitespace from both ends. -/
def pyStrip (s : List Char) : List Char :=
  ((s.dropWhile Char.isWhitespace).reverse.dropWhile Char.isWhitespace).reverse

/-- `get_instrument_key` (`app.py` lines 31-33, `app2.py` lines 28-29):
the fixed exchange prefix `"NSE_EQ|"` concatenated with the stripped
identifier. -/
def get_instrument_key (isin : List Char) : List Char :=
  "NSE_EQ|".data ++ pyStrip isin

/-- Outcome of the final block of `app.py::__main__` (lines 151-159):
either the workbook of sanitized sheets is written, or the no-data
diagnostic is printed and no file is produced. -/
inductive XlsxOutcome where
  | wroteWorkbook (sheets : List (List Char × List Candle))
  | printedNoData
deriving DecidableEq

/-- Outcome of the final block of `app2.py::__main__` (lines 149-164):
either the merged, sorted long-format table is written to CSV, or the
no-data diagnostic is printed and no file is produced. -/
inductive CsvOutcome where
  | wroteCsv (rows : List Row)
  | printedNoData
deriving DecidableEq

/-- Collection step of `app.py` (line 139): a per-symbol result enters
`final_results` only when its dataframe is non-empty. -/
def collectResults (results : List (List Char × List Candle)) :
    List (List Char × List Candle) :=
  results.filter (fun p => !p.2.isEmpty)

/-- Collection step of `app2.py` (line 137): a per-symbol dataframe is
appended to `all_data` only when non-empty. -/
def collectAllData (results : List (List Row)) : List (List Row) :=
  results.filter (fun df => !df.isEmpty)

/-- Final block of `app.py::__main__` (lines 151-159): write one sheet
per collected symbol under its sanitized name if anything was collected,
else print the no-data message. -/
def mainTailXlsx (final_results : List (List Char × List Candle)) :
    XlsxOutcome :=
  if final_results.isEmpty then .printedNoData
  else .wroteWorkbook (final_results.map (fun p => (sanitize p.1, p.2)))

/-- Final block of `app2.py::__main__` (lines 149-164): merge-and-sort
then write the CSV if anything was collected, else print the no-data
message. -/
def mainTailCsv (all_data : List (List Row)) : CsvOutcome :=
  if all_data.isEmpty then .printedNoData
  else .wroteCsv (aggregate all_data)

/-! ### Calendar arithmetic lemmas -/

theorem yearOf_zero : yearOf 0 = 1 := by decide

/-- Any date whose year is at least `STOP_YEAR = 2000` lies at or after
the ordinal of 2000-01-01. -/
theorem yearOf_lower (e : Nat) (h : STOP_YEAR ≤ yearOf e) : 730120 ≤ e := by
  unfold STOP_YEAR yearOf at h
  simp only at h
  split at h <;> omega

/-- Moving one chunk (3 years of days) back from a date of year at least
2010 still lands at year at least `STOP_YEAR = 2000`: the `app.py` loop
guard keeps holding after an empty window that is not yet terminal. -/
theorem yearOf_stepback (e : Nat) (h : 2010 ≤ yearOf e) :
    STOP_YEAR ≤ yearOf (e - CHUNK_SIZE_DAYS) := by
  unfold STOP_YEAR CHUNK_SIZE_DAYS yearOf at *
  simp only at *
  split at h <;> split <;> omega

/-! ### Fuel irrelevance and shape of the `app.py` loop -/

/-- One-step unfolding of the `app.py` loop body. -/
theorem appLoopAux_succ (fetch : Nat → Nat → List Candle) (fuel e : Nat) :
    appLoopAux fetch (fuel + 1) e =
      if STOP_YEAR ≤ yearOf e then
        if fetch (e - CHUNK_SIZE_DAYS) e = [] then
          if yearOf e < 2010 then
            [(e - CHUNK_SIZE_DAYS, e, fetch (e - CHUNK_SIZE_DAYS) e)]
          else (e - CHUNK_SIZE_DAYS, e, fetch (e - CHUNK_SIZE_DAYS) e) ::
            appLoopAux fetch fuel (e - CHUNK_SIZE_DAYS)
        else (e - CHUNK_SIZE_DAYS, e, fetch (e - CHUNK_SIZE_DAYS) e) ::
          appLoopAux fetch fuel (e - CHUNK_SIZE_DAYS)
      else [] := rfl

theorem appLoopAux_fuel_succ (fetch : Nat → Nat → List Candle) :
    ∀ fuel e, e < fuel →
      appLoopAux fetch (fuel + 1) e = appLoopAux fetch fuel e := by
  intro fuel
  induction fuel with
  | zero => intro e h; omega
  | succ f ih =>
    intro e h
    rw [appLoopAux_succ fetch (f + 1) e, appLoopAux_succ fetch f e]
    by_cases hg : STOP_YEAR ≤ yearOf e
    · have he := yearOf_lower e hg
      have hrec : e - CHUNK_SIZE_DAYS < f := by
        unfold CHUNK_SIZE_DAYS; omega
      rw [ih _ hrec]
    · rw [if_neg hg, if_neg hg]

/-- Any fuel beyond `e` computes the same trace as `appLoop fetch e`:
the loop stops through its own exit conditions, never by running out of
fuel. -/
theorem appLoopAux_eq_appLoop (fetch : Nat → Nat → List Candle) :
    ∀ fuel e, e < fuel → appLoopAux fetch fuel e = appLoop fetch e := by
  intro fuel
  induction fuel with
  | zero => intro e h; omega
  | succ f ih =>
    intro e h
    rcases Nat.lt_or_ge e f with h2 | h2
    · rw [appLoopAux_fuel_succ fetch f e h2, ih e h2]
    · have hef : f = e := by omega
      subst hef; rfl

/-- When the loop guard holds, the first recorded window is
`[e - CHUNK_SIZE_DAYS, e]` with the fetched chunk attached. -/
theorem appLoopAux_head (fetch : Nat → Nat → List Candle) (fuel e : Nat)
    (hg : STOP_YEAR ≤ yearOf e) :
    ∃ rest, appLoopAux fetch (fuel + 1) e =
      (e - CHUNK_SIZE_DAYS, e, fetch (e - CHUNK_SIZE_DAYS) e) :: rest := by
  simp only [appLoopAux, if_pos hg]
  split
  · split
    · exact ⟨[], rfl⟩
    · exact ⟨_, rfl⟩
  · exact ⟨_, rfl⟩

/-- The `app.py` trace length is bounded: at most one window per chunk
of days between the epoch and the starting date, plus one. -/
theorem appLoopAux_length (fetch : Nat → Nat → List Candle) :
    ∀ fuel e, (appLoopAux fetch fuel e).length ≤ e / CHUNK_SIZE_DAYS + 1 := by
  intro fuel
  induction fuel with
  | zero => intro e; simp [appLoopAux]
  | succ f ih =>
    intro e
    by_cases hg : STOP_YEAR ≤ yearOf e
    · have he := yearOf_lower e hg
      have hlen := ih (e - CHUNK_SIZE_DAYS)
      simp only [appLoopAux, if_pos hg]
      split
      · split
        · simp only [List.length_cons, List.length_nil]
          unfold CHUNK_SIZE_DAYS at *
          omega
        · simp only [List.length_cons]
          unfold CHUNK_SIZE_DAYS at *
          omega
      · simp only [List.length_cons]
        unfold CHUNK_SIZE_DAYS at *
        omega
    · simp [appLoopAux, if_neg hg]

/-- Every window recorded by the `app.py` loop, except possibly the
first of the trace, has its end equal to the previous window's start. -/
theorem appLoopAux_chain (fetch : Nat → Nat → List Candle) :
    ∀ fuel e, List.Chain' (fun w1 w2 => w2.2.1 = w1.1)
      (appLoopAux fetch fuel e) := by
  intro fuel
  induction fuel with
  | zero => intro e; simp [appLoopAux]
  | succ f ih =>
    intro e
    by_cases hg : STOP_YEAR ≤ yearOf e
    · have hhead : ∀ y ∈ (appLoopAux fetch f (e - CHUNK_SIZE_DAYS)).head?,
          y.2.1 = e - CHUNK_SIZE_DAYS := by
        intro y hy
        cases f with
        | zero => simp [appLoopAux] at hy
        | succ f2 =>
          by_cases hg2 : STOP_YEAR ≤ yearOf (e - CHUNK_SIZE_DAYS)
          · obtain ⟨rest, hr⟩ := appLoopAux_head fetch f2 (e - CHUNK_SIZE_DAYS) hg2
            rw [hr] at hy
            simp only [List.head?_cons, Option.mem_some_iff] at hy
            rw [← hy]
          · simp [appLoopAux, if_neg hg2] at hy
      simp only [appLoopAux, if_pos hg]
      split
      · split
        · simp
        · exact List.chain'_cons'.mpr ⟨hhead, ih _⟩
      · exact List.chain'_cons'.mpr ⟨hhead, ih _⟩
    · simp [appLoopAux, if_neg hg]

/-- Claim C1: for every fetcher behaviour, when an active `app.py`
window returns no candles the engine stops probing if and only if that
window's end year is earlier than the guard year 2010; on an empty
window whose end year is 2010 or later it records the window and probes
a further window whose end is the current window's start. -/
theorem C1_adaptive_stop_guard (fetch : Nat → Nat → List Candle) (e : Nat)
    (hact : STOP_YEAR ≤ yearOf e)
    (hempty : fetch (e - CHUNK_SIZE_DAYS) e = []) :
    (yearOf e < 2010 →
      appLoop fetch e = [(e - CHUNK_SIZE_DAYS, e, [])]) ∧
    (2010 ≤ yearOf e → ∃ rest,
      appLoop fetch e = (e - CHUNK_SIZE_DAYS, e, []) ::
        (e - CHUNK_SIZE_DAYS - CHUNK_SIZE_DAYS, e - CHUNK_SIZE_DAYS,
          fetch (e - CHUNK_SIZE_DAYS - CHUNK_SIZE_DAYS) (e - CHUNK_SIZE_DAYS))
          :: rest) := by
  have he := yearOf_lower e hact
  constructor
  · intro h10
    show appLoopAux fetch (e + 1) e = _
    simp only [appLoopAux, if_pos hact, hempty, eq_self_iff_true, if_true,
      if_pos h10]
  · intro h10
    have hg2 : STOP_YEAR ≤ yearOf (e - CHUNK_SIZE_DAYS) := yearOf_stepback e h10
    have hlt : e - CHUNK_SIZE_DAYS < e := by unfold CHUNK_SIZE_DAYS; omega
    have hnot : ¬ yearOf e < 2010 := by omega
    have hstep : appLoop fetch e =
        (e - CHUNK_SIZE_DAYS, e, []) ::
          appLoopAux fetch e (e - CHUNK_SIZE_DAYS) := by
      show appLoopAux fetch (e + 1) e = _
      simp only [appLoopAux, if_pos hact, hempty, eq_self_iff_true, if_true,
        if_neg hnot]
    rw [appLoopAux_eq_appLoop fetch e (e - CHUNK_SIZE_DAYS) hlt] at hstep
    obtain ⟨rest, hr⟩ :=
      appLoopAux_head fetch (e - CHUNK_SIZE_DAYS) (e - CHUNK_SIZE_DAYS) hg2
    exact ⟨rest, by rw [hstep]; exact congrArg _ hr⟩

/-- Witness for C1 at the concrete date ordinal 733873 (2010-04-11) and
the fetcher that always returns no candles. -/
theorem C1_adaptive_stop_guard_witness :
    (yearOf 733873 < 2010 →
      appLoop (fun _ _ => []) 733873 =
        [(733873 - CHUNK_SIZE_DAYS, 733873, [])]) ∧
    (2010 ≤ yearOf 733873 → ∃ rest,
      appLoop (fun _ _ => []) 733873 = (733873 - CHUNK_SIZE_DAYS, 733873, []) ::
        (733873 - CHUNK_SIZE_DAYS - CHUNK_SIZE_DAYS, 733873 - CHUNK_SIZE_DAYS,
          (fun _ _ => ([] : List Candle))
            (733873 - CHUNK_SIZE_DAYS - CHUNK_SIZE_DAYS)
            (733873 - CHUNK_SIZE_DAYS)) :: rest) :=
  C1_adaptive_stop_guard (fun _ _ => []) 733873 (by decide) rfl

/-- Claim C5: with the synthetic fetcher (candles exactly for windows
whose end year is 2015 or later), the `app.py` loop reaches its stop
condition in boundedly many windows: the trace is unchanged by any
amount of extra fuel, and its length is bounded by the number of chunks
between the epoch and the starting date plus one. -/
theorem C5_adaptive_stop_bounded (e : Nat) :
    (∀ extra, appLoopAux synthFetch (e + 1 + extra) e = appLoop synthFetch e) ∧
    (appLoop synthFetch e).length ≤ e / CHUNK_SIZE_DAYS + 1 :=
  ⟨fun extra => appLoopAux_eq_appLoop synthFetch (e + 1 + extra) e (by omega),
   appLoopAux_length synthFetch (e + 1) e⟩

/-- Claim C10: consecutive `app.py` windows share their boundary date
(the next window's end equals the current window's start), so with a
fetcher that never duplicates a date inside one window (here: one candle
at each window boundary, starting from 2003-01-01 = ordinal 731216) the
accumulated raw collection holds the shared boundary date 730121 twice,
and only the normalizer's deduplication makes the final per-symbol dates
unique. -/
theorem C10_shared_boundary :
    (∀ fetch e, List.Chain' (fun w1 w2 => w2.2.1 = w1.1) (appLoop fetch e)) ∧
    ((allCandles boundaryFetch 731216).map Candle.date).count 730121 = 2 ∧
    (∀ w ∈ appLoop boundaryFetch 731216, (w.2.2.map Candle.date).Nodup) ∧
    (normalize (allCandles boundaryFetch 731216)).map Candle.date =
      [729026, 730121, 731216] :=
  ⟨fun fetch e => appLoopAux_chain fetch (e + 1) e, by decide, by decide,
   by decide⟩

/-! ### Fuel irrelevance and shape of the `app2.py` loop -/

/-- One-step unfolding of the `app2.py` loop body. -/
theorem app2LoopAux_succ (fetch : Nat → Nat → List Candle) (fuel e : Nat) :
    app2LoopAux fetch (fuel + 1) e =
      if START_ORD ≤ e then
        if max (e - CHUNK_SIZE_DAYS) START_ORD ≤ START_ORD then
          [(max (e - CHUNK_SIZE_DAYS) START_ORD, e,
            fetch (max (e - CHUNK_SIZE_DAYS) START_ORD) e)]
        else (max (e - CHUNK_SIZE_DAYS) START_ORD, e,
            fetch (max (e - CHUNK_SIZE_DAYS) START_ORD) e) ::
          app2LoopAux fetch fuel (max (e - CHUNK_SIZE_DAYS) START_ORD - 1)
      else [] := rfl

theorem app2LoopAux_fuel_succ (fetch : Nat → Nat → List Candle) :
    ∀ fuel e, e < fuel →
      app2LoopAux fetch (fuel + 1) e = app2LoopAux fetch fuel e := by
  intro fuel
  induction fuel with
  | zero => intro e h; omega
  | succ f ih =>
    intro e h
    rw [app2LoopAux_succ fetch (f + 1) e, app2LoopAux_succ fetch f e]
    by_cases hg : START_ORD ≤ e
    · by_cases hb : max (e - CHUNK_SIZE_DAYS) START_ORD ≤ START_ORD
      · rw [if_pos hg, if_pos hg, if_pos hb, if_pos hb]
      · have hS : START_ORD = 733773 := by decide
        have hC : CHUNK_SIZE_DAYS = 1095 := by decide
        have hrec : max (e - CHUNK_SIZE_DAYS) START_ORD - 1 < f := by omega
        rw [ih _ hrec]
    · rw [if_neg hg, if_neg hg]

/-- Any fuel beyond `e` computes the same `app2.py` trace as
`app2Loop fetch e`: the loop stops through its own exit conditions. -/
theorem app2LoopAux_eq_app2Loop (fetch : Nat → Nat → List Candle) :
    ∀ fuel e, e < fuel → app2LoopAux fetch fuel e = app2Loop fetch e := by
  intro fuel
  induction fuel with
  | zero => intro e h; omega
  | succ f ih =>
    intro e h
    rcases Nat.lt_or_ge e f with h2 | h2
    · rw [app2LoopAux_fuel_succ fetch f e h2, ih e h2]
    · have hef : f = e := by omega
      subst hef; rfl

/-- Every window recorded by the `app2.py` loop has its start clamped to
at least the floor date `START_ORD`. -/
theorem app2LoopAux_start_clamped (fetch : Nat → Nat → List Candle) :
    ∀ fuel e w, w ∈ app2LoopAux fetch fuel e → START_ORD ≤ w.1 := by
  intro fuel
  induction fuel with
  | zero => intro e w hw; simp [app2LoopAux] at hw
  | succ f ih =>
    intro e w hw
    rw [app2LoopAux_succ] at hw
    by_cases hg : START_ORD ≤ e
    · rw [if_pos hg] at hw
      split at hw
      · rw [List.mem_singleton] at hw
        subst hw
        exact Nat.le_max_right _ _
      · rcases List.mem_cons.mp hw with h1 | h1
        · subst h1; exact Nat.le_max_right _ _
        · exact ih _ w h1
    · rw [if_neg hg] at hw; simp at hw

/-- The sequence of date windows issued by the `app2.py` loop does not
depend on what any window returns: the loop never early-stops on an
empty window. -/
theorem app2LoopAux_windows_indep (f g : Nat → Nat → List Candle) :
    ∀ fuel e, (app2LoopAux f fuel e).map (fun w => (w.1, w.2.1)) =
      (app2LoopAux g fuel e).map (fun w => (w.1, w.2.1)) := by
  intro fuel
  induction fuel with
  | zero => intro e; rfl
  | succ fu ih =>
    intro e
    rw [app2LoopAux_succ f, app2LoopAux_succ g]
    by_cases hg : START_ORD ≤ e
    · rw [if_pos hg, if_pos hg]
      by_cases hb : max (e - CHUNK_SIZE_DAYS) START_ORD ≤ START_ORD
      · rw [if_pos hb, if_pos hb]
        rfl
      · rw [if_neg hb, if_neg hb]
        simp only [List.map_cons]
        rw [ih]
    · rw [if_neg hg, if_neg hg]

/-- When started at or after the floor, the last window issued by the
`app2.py` loop starts exactly at the floor date. -/
theorem app2LoopAux_last (fetch : Nat → Nat → List Candle) :
    ∀ fuel e, e < fuel → START_ORD ≤ e →
      ∃ w, (app2LoopAux fetch fuel e).getLast? = some w ∧
        w.1 = START_ORD := by
  intro fuel
  induction fuel with
  | zero => intro e h; omega
  | succ f ih =>
    intro e h hg
    rw [app2LoopAux_succ, if_pos hg]
    by_cases hb : max (e - CHUNK_SIZE_DAYS) START_ORD ≤ START_ORD
    · rw [if_pos hb]
      refine ⟨_, rfl, ?_⟩
      have hmr := Nat.le_max_right (e - CHUNK_SIZE_DAYS) START_ORD
      show max (e - CHUNK_SIZE_DAYS) START_ORD = START_ORD
      omega
    · rw [if_neg hb]
      have hS : START_ORD = 733773 := by decide
      have hC : CHUNK_SIZE_DAYS = 1095 := by decide
      have hrec : max (e - CHUNK_SIZE_DAYS) START_ORD - 1 < f := by omega
      have hg2 : START_ORD ≤ max (e - CHUNK_SIZE_DAYS) START_ORD - 1 := by
        omega
      obtain ⟨w, hw1, hw2⟩ := ih _ hrec hg2
      refine ⟨w, ?_, hw2⟩
      have hne : app2LoopAux fetch f
          (max (e - CHUNK_SIZE_DAYS) START_ORD - 1) ≠ [] := by
        intro hnil
        rw [hnil] at hw1
        simp at hw1
      obtain ⟨b, l2, hb2⟩ := List.exists_cons_of_ne_nil hne
      rw [hb2] at hw1 ⊢
      rw [List.getLast?_cons_cons]
      exact hw1

/-- Every date between the floor and the starting date is covered by
some window issued by the `app2.py` loop. -/
theorem app2LoopAux_cover (fetch : Nat → Nat → List Candle) :
    ∀ fuel e d, e < fuel → START_ORD ≤ e → START_ORD ≤ d → d ≤ e →
      ∃ w ∈ app2LoopAux fetch fuel e, w.1 ≤ d ∧ d ≤ w.2.1 := by
  intro fuel
  induction fuel with
  | zero => intro e d h; omega
  | succ f ih =>
    intro e d h hg hd1 hd2
    rw [app2LoopAux_succ, if_pos hg]
    by_cases hcov : max (e - CHUNK_SIZE_DAYS) START_ORD ≤ d
    · by_cases hb : max (e - CHUNK_SIZE_DAYS) START_ORD ≤ START_ORD
      · rw [if_pos hb]
        exact ⟨_, List.mem_singleton.mpr rfl, hcov, hd2⟩
      · rw [if_neg hb]
        exact ⟨_, List.mem_cons_self _ _, hcov, hd2⟩
    · push_neg at hcov
      have hb : ¬ max (e - CHUNK_SIZE_DAYS) START_ORD ≤ START_ORD := by omega
      rw [if_neg hb]
      have hS : START_ORD = 733773 := by decide
      have hC : CHUNK_SIZE_DAYS = 1095 := by decide
      have hrec : max (e - CHUNK_SIZE_DAYS) START_ORD - 1 < f := by omega
      have hg2 : START_ORD ≤ max (e - CHUNK_SIZE_DAYS) START_ORD - 1 := by
        omega
      have hd2b : d ≤ max (e - CHUNK_SIZE_DAYS) START_ORD - 1 := by omega
      obtain ⟨w, hwmem, hw⟩ := ih _ d hrec hg2 hd1 hd2b
      exact ⟨w, List.mem_cons_of_mem _ hwmem, hw⟩

/-- Claim C2: for every fetcher behaviour, the `app2.py` engine issues
windows whose starts are clamped to the floor date 2010-01-01
(`START_ORD`), issues exactly the same window sequence as it would if
every window were empty (so it never early-stops on an empty window),
continues until a window's start reaches the floor, and the union of the
issued windows' date spans covers `[START_ORD, e]` with no gaps. -/
theorem C2_fixed_horizon (fetch : Nat → Nat → List Candle) (e : Nat)
    (hg : START_ORD ≤ e) :
    (∀ w ∈ app2Windows fetch e, START_ORD ≤ w.1) ∧
    app2Windows fetch e = app2Windows (fun _ _ => []) e ∧
    (∃ w, (app2Windows fetch e).getLast? = some w ∧ w.1 = START_ORD) ∧
    (∀ d, START_ORD ≤ d → d ≤ e →
      ∃ w ∈ app2Windows fetch e, w.1 ≤ d ∧ d ≤ w.2) := by
  refine ⟨?_, ?_, ?_, ?_⟩
  · intro w hw
    obtain ⟨w0, hw0, rfl⟩ := List.mem_map.mp hw
    exact app2LoopAux_start_clamped fetch (e + 1) e w0 hw0
  · exact app2LoopAux_windows_indep fetch (fun _ _ => []) (e + 1) e
  · obtain ⟨w, hw1, hw2⟩ := app2LoopAux_last fetch (e + 1) e (by omega) hg
    refine ⟨(w.1, w.2.1), ?_, hw2⟩
    show ((app2LoopAux fetch (e + 1) e).map (fun w => (w.1, w.2.1))).getLast?
      = some (w.1, w.2.1)
    rw [List.getLast?_map, hw1]
    rfl
  · intro d hd1 hd2
    obtain ⟨w, hmem, h1, h2⟩ :=
      app2LoopAux_cover fetch (e + 1) e d (by omega) hg hd1 hd2
    exact ⟨(w.1, w.2.1), List.mem_map_of_mem _ hmem, h1, h2⟩

/-- Witness for C2 at the concrete date ordinal 735000 (2013-05-11) and
the fetcher that always returns no candles. -/
theorem C2_fixed_horizon_witness :
    (∀ w ∈ app2Windows (fun _ _ => []) 735000, START_ORD ≤ w.1) ∧
    app2Windows (fun _ _ => []) 735000 =
      app2Windows (fun _ _ => []) 735000 ∧
    (∃ w, (app2Windows (fun _ _ => []) 735000).getLast? = some w ∧
      w.1 = START_ORD) ∧
    (∀ d, START_ORD ≤ d → d ≤ 735000 →
      ∃ w ∈ app2Windows (fun _ _ => []) 735000, w.1 ≤ d ∧ d ≤ w.2) :=
  C2_fixed_horizon (fun _ _ => []) 735000 (by decide)

/-! ### Normalizer lemmas -/

theorem dedupFirstAux_sublist : ∀ (l : List Candle) (seen : List Nat),
    List.Sublist (dedupFirstAux seen l) l := by
  intro l
  induction l with
  | nil => intro seen; simp [dedupFirstAux]
  | cons c cs ih =>
    intro seen
    simp only [dedupFirstAux]
    by_cases hcs : c.date ∈ seen
    · rw [if_pos hcs]
      exact (ih seen).cons c
    · rw [if_neg hcs]
      exact (ih (c.date :: seen)).cons₂ c

theorem dedupFirstAux_not_mem_seen :
    ∀ (l : List Candle) (seen : List Nat) (x : Candle),
      x ∈ dedupFirstAux seen l → x.date ∉ seen := by
  intro l
  induction l with
  | nil => intro seen x hx; simp [dedupFirstAux] at hx
  | cons c cs ih =>
    intro seen x hx
    simp only [dedupFirstAux] at hx
    by_cases hcs : c.date ∈ seen
    · rw [if_pos hcs] at hx
      exact ih seen x hx
    · rw [if_neg hcs] at hx
      rcases List.mem_cons.mp hx with h1 | h1
      · subst h1; exact hcs
      · intro hmem
        exact ih (c.date :: seen) x h1 (List.mem_cons_of_mem _ hmem)

theorem dedupFirstAux_pairwise : ∀ (l : List Candle) (seen : List Nat),
    (dedupFirstAux seen l).Pairwise (fun a b => a.date ≠ b.date) := by
  intro l
  induction l with
  | nil => intro seen; simp [dedupFirstAux]
  | cons c cs ih =>
    intro seen
    simp only [dedupFirstAux]
    by_cases hcs : c.date ∈ seen
    · rw [if_pos hcs]; exact ih seen
    · rw [if_neg hcs]
      refine List.Pairwise.cons ?_ (ih _)
      intro b hb
      have hbs := dedupFirstAux_not_mem_seen cs (c.date :: seen) b hb
      intro heq
      apply hbs
      rw [← heq]
      exact List.mem_cons_self _ _

/-- Claim C3: for every batch of raw candles (any order, repeated dates
allowed), the normalized per-symbol result is sorted non-decreasing by
date and contains no two records with the same date. -/
theorem C3_normalize_sorted_unique (raw : List Candle) :
    List.Sorted dateLe (normalize raw) ∧
    (normalize raw).Pairwise (fun a b => a.date ≠ b.date) :=
  ⟨List.Pairwise.sublist (dedupFirstAux_sublist _ [])
      (List.sorted_insertionSort dateLe raw),
   dedupFirstAux_pairwise _ []⟩

/-- Claim C4: `fetch_chunk` is a total function into candle lists — no
exception outcome of the remote call escapes to the caller — and on a
raised error or a response without a candle field it returns the empty
sequence, while a response carrying candles is returned as-is. -/
theorem C4_fetch_chunk_fail_soft :
    (∀ err, fetch_chunk (.error err) = []) ∧
    fetch_chunk (.ok none) = [] ∧
    (∀ cs, fetch_chunk (.ok (some cs)) = cs) := by
  refine ⟨fun err => rfl, rfl, fun cs => ?_⟩
  cases cs with
  | nil => rfl
  | cons c cs2 => rfl

/-! ### String comparison lemmas for the aggregator -/

theorem strLtB_trans : ∀ s t u : List Char,
    strLtB s t = true → strLtB t u = true → strLtB s u = true := by
  intro s
  induction s with
  | nil =>
    intro t u h1 h2
    cases t with
    | nil => simp [strLtB] at h1
    | cons b t2 =>
      cases u with
      | nil => simp [strLtB] at h2
      | cons c u2 => simp [strLtB]
  | cons a s2 ih =>
    intro t u h1 h2
    cases t with
    | nil => simp [strLtB] at h1
    | cons b t2 =>
      cases u with
      | nil => simp [strLtB] at h2
      | cons c u2 =>
        simp only [strLtB] at h1 h2 ⊢
        split_ifs at h1 h2 ⊢ <;>
          first
          | rfl
          | exact Bool.noConfusion h1
          | exact Bool.noConfusion h2
          | exact ih t2 u2 h1 h2
          | omega

theorem strLtB_total : ∀ s t : List Char,
    strLtB s t = true ∨ s = t ∨ strLtB t s = true := by
  intro s
  induction s with
  | nil =>
    intro t
    cases t with
    | nil => exact Or.inr (Or.inl rfl)
    | cons b t2 => exact Or.inl rfl
  | cons a s2 ih =>
    intro t
    cases t with
    | nil => exact Or.inr (Or.inr rfl)
    | cons b t2 =>
      rcases Nat.lt_trichotomy a.toNat b.toNat with h | h | h
      · refine Or.inl ?_
        simp only [strLtB]
        rw [if_pos h]
      · have hab : a = b :=
          Char.eq_of_val_eq (UInt32.eq_of_val_eq (Fin.eq_of_val_eq h))
        subst hab
        rcases ih t2 with h2 | h2 | h2
        · refine Or.inl ?_
          simp only [strLtB]
          rw [if_neg (Nat.lt_irrefl _), if_neg (Nat.lt_irrefl _)]
          exact h2
        · exact Or.inr (Or.inl (by rw [h2]))
        · refine Or.inr (Or.inr ?_)
          simp only [strLtB]
          rw [if_neg (Nat.lt_irrefl _), if_neg (Nat.lt_irrefl _)]
          exact h2
      · refine Or.inr (Or.inr ?_)
        simp only [strLtB]
        rw [if_pos h]

instance : IsTotal Row rowLe :=
  ⟨fun a b => by
    rcases strLtB_total a.1 b.1 with h | h | h
    · exact Or.inl (Or.inl h)
    · rcases Nat.le_total a.2.date b.2.date with hd | hd
      · exact Or.inl (Or.inr ⟨h, hd⟩)
      · exact Or.inr (Or.inr ⟨h.symm, hd⟩)
    · exact Or.inr (Or.inl h)⟩

instance : IsTrans Row rowLe :=
  ⟨fun a b c h1 h2 => by
    rcases h1 with h1 | ⟨he1, hd1⟩
    · rcases h2 with h2 | ⟨he2, hd2⟩
      · exact Or.inl (strLtB_trans _ _ _ h1 h2)
      · refine Or.inl ?_
        rw [← he2]
        exact h1
    · rcases h2 with h2 | ⟨he2, hd2⟩
      · refine Or.inl ?_
        rw [he1]
        exact h2
      · exact Or.inr ⟨he1.trans he2, le_trans hd1 hd2⟩⟩

/-- Row for symbol `"B"` at date 2021-01-02. -/
def rowB2 : Row := (['B'], ⟨daysBeforeYear 2021 + 2, 0, 0, 0, 0, 0, 0⟩)

/-- Row for symbol `"B"` at date 2021-01-01. -/
def rowB1 : Row := (['B'], ⟨daysBeforeYear 2021 + 1, 0, 0, 0, 0, 0, 0⟩)

/-- Row for symbol `"A"` at date 2021-01-01. -/
def rowA1 : Row := (['A'], ⟨daysBeforeYear 2021 + 1, 0, 0, 0, 0, 0, 0⟩)

/-- Claim C6: the long-format aggregation sorts the concatenated
per-symbol results ascending by `(symbol, date)`; in particular, given
per-symbol results for symbols `"B"` and `"A"` with dates
`[2021-01-02, 2021-01-01]` and `[2021-01-01]`, the aggregated row order
is `A@2021-01-01, B@2021-01-01, B@2021-01-02`. -/
theorem C6_aggregate_sorted :
    aggregate [[rowB2, rowB1], [rowA1]] = [rowA1, rowB1, rowB2] ∧
    (∀ all_data : List (List Row), List.Sorted rowLe (aggregate all_data)) :=
  ⟨by decide, fun all_data => List.sorted_insertionSort rowLe _⟩

/-- Claim C7: when every symbol's fetch yields zero candles, the
collected set of non-empty per-symbol results is empty, and both scripts
take the no-data branch: the diagnostic outcome is produced and no
output artifact (workbook or CSV) is written. -/
theorem C7_empty_run_no_artifact (rs1 : List (List Char × List Candle))
    (rs2 : List (List Row))
    (h1 : ∀ p ∈ rs1, p.2 = []) (h2 : ∀ df ∈ rs2, df = []) :
    mainTailXlsx (collectResults rs1) = XlsxOutcome.printedNoData ∧
    mainTailCsv (collectAllData rs2) = CsvOutcome.printedNoData := by
  have e1 : collectResults rs1 = [] := by
    apply List.filter_eq_nil_iff.mpr
    intro p hp
    simp [h1 p hp]
  have e2 : collectAllData rs2 = [] := by
    apply List.filter_eq_nil_iff.mpr
    intro df hdf
    simp [h2 df hdf]
  rw [e1, e2]
  exact ⟨rfl, rfl⟩

/-- Witness for C7 on a roster with one symbol whose fetch returned no
candles, for each script. -/
theorem C7_empty_run_no_artifact_witness :
    mainTailXlsx (collectResults [(['A'], [])]) = XlsxOutcome.printedNoData ∧
    mainTailCsv (collectAllData [([] : List Row)]) = CsvOutcome.printedNoData :=
  C7_empty_run_no_artifact [(['A'], [])] [[]] (by decide) (by decide)

/-- A symbol longer than 30 characters containing all three stripped
separator characters. -/
def longSymA : List Char :=
  List.replicate 30 'X' ++ ('|' :: ':' :: '/' :: ['a'])

/-- A second such symbol, distinct from `longSymA` only past the
truncation point. -/
def longSymB : List Char :=
  List.replicate 30 'X' ++ ('|' :: ':' :: '/' :: ['b'])

/-- Counterexample for C8's distinctness clause: two distinct symbols,
each containing `|`, `:`, `/` and longer than 30 characters, whose
sanitized sheet names coincide. -/
theorem C8_distinct_sheet_names_cex :
    ¬ (∀ s1 s2 : List Char,
      ('|' ∈ s1 ∧ ':' ∈ s1 ∧ '/' ∈ s1 ∧ 30 < s1.length) →
      ('|' ∈ s2 ∧ ':' ∈ s2 ∧ '/' ∈ s2 ∧ 30 < s2.length) →
      s1 ≠ s2 → sanitize s1 ≠ sanitize s2) := by
  intro hall
  exact hall longSymA longSymB (by decide) (by decide) (by decide) (by decide)

/-- Claim C8 as amended: for every symbol containing `|`, `:`, `/` and
longer than 30 characters, the sanitized sheet name contains none of
those characters and has length at most 30 (distinct symbols need not
receive distinct sanitized names). -/
theorem C8_sanitize_strip_truncate (s : List Char)
    (h1 : '|' ∈ s) (h2 : ':' ∈ s) (h3 : '/' ∈ s) (h4 : 30 < s.length) :
    '|' ∉ sanitize s ∧ ':' ∉ sanitize s ∧ '/' ∉ sanitize s ∧
      (sanitize s).length ≤ 30 := by
  refine ⟨?_, ?_, ?_, ?_⟩
  · intro hmem
    have hp := (List.mem_filter.mp
      (List.mem_filter.mp
        (List.mem_filter.mp (List.mem_of_mem_take hmem)).1).1).2
    simp at hp
  · intro hmem
    have hp := (List.mem_filter.mp
      (List.mem_filter.mp (List.mem_of_mem_take hmem)).1).2
    simp at hp
  · intro hmem
    have hp := (List.mem_filter.mp (List.mem_of_mem_take hmem)).2
    simp at hp
  · show (List.take 30 _).length ≤ 30
    rw [List.length_take]
    exact Nat.min_le_left _ _

/-- Witness for the amended C8 at a concrete 34-character symbol. -/
theorem C8_sanitize_strip_truncate_witness :
    '|' ∉ sanitize longSymA ∧ ':' ∉ sanitize longSymA ∧
      '/' ∉ sanitize longSymA ∧ (sanitize longSymA).length ≤ 30 :=
  C8_sanitize_strip_truncate longSymA (by decide) (by decide) (by decide)
    (by decide)

/-- Claim C9: the instrument key resolver is deterministic (equal
stripped identifiers give equal keys) and injective on distinct stripped
identifiers, the key being the fixed exchange prefix `"NSE_EQ|"`
concatenated with the stripped identifier. -/
theorem C9_resolver_injective :
    (∀ a b : List Char, pyStrip a = pyStrip b →
      get_instrument_key a = get_instrument_key b) ∧
    (∀ a b : List Char, pyStrip a ≠ pyStrip b →
      get_instrument_key a ≠ get_instrument_key b) := by
  constructor
  · intro a b h
    unfold get_instrument_key
    rw [h]
  · intro a b h hkey
    unfold get_instrument_key at hkey
    exact h (List.append_cancel_left hkey)

/-- Witness for C9: identifiers equal after stripping resolve equally,
and distinct stripped identifiers resolve to distinct keys. -/
theorem C9_resolver_injective_witness :
    get_instrument_key (' ' :: 'A' :: [' ']) = get_instrument_key ['A'] ∧
    get_instrument_key ['A'] ≠ get_instrument_key ['B'] :=
  ⟨C9_resolver_injective.1 (' ' :: 'A' :: [' ']) ['A'] (by decide),
   C9_resolver_injective.2 ['A'] ['B'] (by decide)⟩

end Upstox
